import Mathlib

/- Formal model of the election-results dashboard (app.py and v2app.py).

   Python strings are modelled as lists of characters (`PyStr`); Python string
   comparison is code-point lexicographic order; pandas integer columns are `Int`.
   pandas `groupby(..., sort=True)` sorts the group keys ascending, and a
   multi-column `sort_values` is a stable lexicographic sort (numpy lexsort);
   both are modelled by a stable insertion sort (`stableSort`) — any two stable
   sorts with the same comparator produce the same list, so this is
   behaviour-preserving.  Side effects (Streamlit widgets, temp files, the
   actual PNG/PDF bytes) are out of scope; the data each page draws is kept. -/

abbrev PyStr := List Char

/-- Python `<` on strings: lexicographic comparison by code point
    (a proper prefix is smaller). -/
def pyLtB : PyStr → PyStr → Bool
  | _, [] => false
  | [], _ :: _ => true
  | a :: s, b :: t => a < b || (a = b && pyLtB s t)

/-- Python `<=` on strings, as used by `sorted` on homogeneous string lists. -/
def pyLeB (a b : PyStr) : Bool := pyLtB a b || decide (a = b)

/-- The whitespace characters removed by Python `str.strip()`. -/
def isPySpace (c : Char) : Bool :=
  c = ' ' || c = '\t' || c = '\n' || c = '\r' || c = '\x0b' || c = '\x0c'

/-- Python `str.strip()`. -/
def pyStrip (s : PyStr) : PyStr :=
  ((s.dropWhile isPySpace).reverse.dropWhile isPySpace).reverse

/-- Python `str.isdigit()` (ASCII digits, the case exercised by unit labels). -/
def pyIsdigit (s : PyStr) : Bool := !s.isEmpty && s.all Char.isDigit

/-- Python `int(s)` on a digit string. -/
def pyInt (s : PyStr) : Nat := s.foldl (fun n c => 10 * n + (c.toNat - 48)) 0

/-- Strict lexicographic comparison of pairs from strict comparisons of the
    components: the order pandas puts on multi-column group keys (all columns
    ascending). -/
def lexLtB {α β : Type} [DecidableEq α] (lt1 : α → α → Bool) (lt2 : β → β → Bool)
    (a b : α × β) : Bool :=
  lt1 a.1 b.1 || (decide (a.1 = b.1) && lt2 a.2 b.2)

/-- Lexicographic "less or equal" comparator of pairs: strict on the first
    component, tie broken by a non-strict comparator on the second.  This is
    the comparison realised by a stable multi-column `sort_values`: sort by the
    later column first, then stably by the earlier one. -/
def lexLeB {α β : Type} [DecidableEq α] (lt1 : α → α → Bool) (le2 : β → β → Bool)
    (a b : α × β) : Bool :=
  lt1 a.1 b.1 || (decide (a.1 = b.1) && le2 a.2 b.2)

/-- Comparator of a column sorted with `ascending=False`. -/
def intDescLeB (x y : Int) : Bool := decide (y ≤ x)

/-- Non-strict comparator obtained from a strict one (an ascending sort key). -/
def ltToLeB {α : Type} [DecidableEq α] (lt : α → α → Bool) (a b : α) : Bool :=
  lt a b || decide (a = b)

/-- Insert `a` into `l` before the first element `b` with `le a b`;
    the building block of a stable insertion sort. -/
def stableInsert {α : Type} (le : α → α → Bool) (a : α) : List α → List α
  | [] => [a]
  | b :: l => if le a b then a :: b :: l else b :: stableInsert le a l

/-- Stable sort by the comparator `le`: models pandas' stable multi-column
    `sort_values` and Python's stable `sorted`. -/
def stableSort {α : Type} (le : α → α → Bool) : List α → List α
  | [] => []
  | a :: l => stableInsert le a (stableSort le l)

/-- Helper for `uniqueList`: drop the elements already in `seen`. -/
def uniqueAux {α : Type} [DecidableEq α] (seen : List α) : List α → List α
  | [] => []
  | a :: l => if a ∈ seen then uniqueAux seen l else a :: uniqueAux (a :: seen) l

/-- `pandas.Series.unique`: distinct values in order of first occurrence. -/
def uniqueList {α : Type} [DecidableEq α] (l : List α) : List α := uniqueAux [] l

/-- The distinct values of `l` in ascending order of the strict comparator `lt`:
    the group keys produced by `groupby(..., sort=True)`. -/
def sortedDedup {α : Type} [DecidableEq α] (lt : α → α → Bool) (l : List α) : List α :=
  (stableSort (ltToLeB lt) l).dedup

/-- One normalised data row (a row of the loaded DataFrame `df`). -/
structure Row where
  prabhag : PyStr
  etype : PyStr
  name : PyStr
  party : PyStr
  votes : Int
deriving DecidableEq

/-- One raw CSV row as `load_data` sees it: `prabhag` is already a string after
    `astype(str)`; `party = none` models a NaN (absent) `Party` cell;
    `votes = none` models a cell turned into NaN by
    `pd.to_numeric(..., errors='coerce')`. -/
structure RawRow where
  prabhag : PyStr
  etype : PyStr
  name : PyStr
  party : Option PyStr
  votes : Option Int
deriving DecidableEq

/-- The per-row normalisation of `load_data` (identical in app.py and v2app.py):
    `Votes`: `to_numeric(...).fillna(0).astype(int)`;
    `Prabhag`: `astype(str).str.strip()`;
    `Party`: `fillna('Independent').str.strip()`;
    `Election_type`: `str.strip()`. -/
def load_row (r : RawRow) : Row where
  prabhag := pyStrip r.prabhag
  etype := pyStrip r.etype
  name := r.name
  party := pyStrip (r.party.getD "Independent".data)
  votes := r.votes.getD 0

/-- `load_data` over a whole CSV table. -/
def load_data (rs : List RawRow) : List Row := rs.map load_row

/-- `natural_sort_key` from app.py and v2app.py:
    `int(s) if s.isdigit() else s` — the key is an `int` (`Sum.inl`) or a
    `str` (`Sum.inr`). -/
def natural_sort_key (s : PyStr) : Sum Nat PyStr :=
  if pyIsdigit s then Sum.inl (pyInt s) else Sum.inr s

/-- Comparison of two natural-sort keys of the same kind.  (CPython raises
    TypeError on any int/str comparison; the two mixed cases below are never
    reached because `sortedByNaturalKey` refuses mixed lists.) -/
def natKeyLe : Sum Nat PyStr → Sum Nat PyStr → Bool
  | Sum.inl x, Sum.inl y => decide (x ≤ y)
  | Sum.inr x, Sum.inr y => pyLeB x y
  | Sum.inl _, Sum.inr _ => true
  | Sum.inr _, Sum.inl _ => false

/-- Python `sorted(l, key=natural_sort_key)`.  When `l` contains both a digit
    string and a non-digit string the keys mix `int` and `str`; sorting such a
    list always performs at least one int/str comparison and CPython raises
    `TypeError: '<' not supported between instances of 'str' and 'int'`,
    modelled as `none`. -/
def sortedByNaturalKey (l : List PyStr) : Option (List PyStr) :=
  if (l.any fun s => pyIsdigit s) && (l.any fun s => !pyIsdigit s) then none
  else some (stableSort (fun a b => natKeyLe (natural_sort_key a) (natural_sort_key b)) l)

abbrev Key4 := PyStr × PyStr × PyStr × PyStr

/-- The aggregation key `(Prabhag, Election_type, Name, Party)`. -/
def rowKey (r : Row) : Key4 := (r.prabhag, r.etype, r.name, r.party)

/-- Strict lexicographic order on 4-part group keys (each column ascending). -/
def key4LtB : Key4 → Key4 → Bool := lexLtB pyLtB (lexLtB pyLtB (lexLtB pyLtB pyLtB))

/-- Total votes of one group: `groupby([...])['Votes'].sum()` at one key. -/
def sumVotes (rows : List Row) (k : Key4) : Int :=
  ((rows.filter fun r => decide (rowKey r = k)).map Row.votes).sum

/-- The aggregation as a mapping (spec §4.1): key ↦ aggregated total,
    `none` for keys with no matching record. -/
def aggregate (rows : List Row) (k : Key4) : Option Int :=
  if (rows.filter fun r => decide (rowKey r = k)).isEmpty then none
  else some (sumVotes rows k)

/-- The sorted distinct keys of
    `groupby(['Prabhag','Election_type','Name','Party'])`
    (pandas sorts group keys ascending). -/
def groupbyKeys (rows : List Row) : List Key4 := sortedDedup key4LtB (rows.map rowKey)

/-- `agg = data.groupby(['Prabhag','Election_type','Name','Party'])['Votes']
    .sum().reset_index()`: one aggregated row per distinct key, in ascending
    key order (this frame order is what the later stable sort ties break on). -/
def agg (rows : List Row) : List Row :=
  (groupbyKeys rows).map fun k => ⟨k.1, k.2.1, k.2.2.1, k.2.2.2, sumVotes rows k⟩

/-- Comparator of `agg.sort_values(['Prabhag','Election_type','Votes'],
    ascending=[True,True,False])`: unit ascending, category ascending,
    votes descending. -/
def saLeB (a b : Row) : Bool :=
  lexLeB pyLtB (lexLeB pyLtB intDescLeB)
    (a.prabhag, (a.etype, a.votes)) (b.prabhag, (b.etype, b.votes))

/-- `sorted_agg` (the same computation in app.py `get_margin_analysis` and in
    v2app.py's margin tab): the aggregated rows, stably sorted by unit and
    category ascending and votes descending. -/
def sorted_agg (rows : List Row) : List Row := stableSort saLeB (agg rows)

/-- The `(Prabhag, Election_type)` pair of a row. -/
def peRow (r : Row) : PyStr × PyStr := (r.prabhag, r.etype)

/-- Strict lexicographic order on string pairs. -/
def pairLtB : PyStr × PyStr → PyStr × PyStr → Bool := lexLtB pyLtB pyLtB

/-- The group keys of `sorted_agg.groupby(['Prabhag','Election_type'])`, in
    pandas' sorted key order. -/
def peKeys (rows : List Row) : List (PyStr × PyStr) :=
  sortedDedup pairLtB ((sorted_agg rows).map peRow)

/-- The rows of one `(Prabhag, Election_type)` group, in `sorted_agg` order
    (pandas `groupby` groups by value; `head`/`nth` keep the frame order). -/
def groupRows (rows : List Row) (g : PyStr × PyStr) : List Row :=
  (sorted_agg rows).filter fun r => decide (peRow r = g)

/-- One row of app.py's `margin_df`: winner columns (suffix `_W`), runner-up
    columns (suffix `_R`) and the margin. -/
structure MarginRow where
  prabhag : PyStr
  etype : PyStr
  nameW : PyStr
  partyW : PyStr
  votesW : Int
  nameR : PyStr
  partyR : PyStr
  votesR : Int
  margin : Int
deriving DecidableEq

/-- The `margin_df` row contributed by one group: the group's first row of
    `sorted_agg` is the `head(1)` winner, its second row the `nth(1)` runner-up;
    a group with fewer than two rows yields nothing (the runner-up frame has no
    row for it, so the inner merge drops it).  `Margin = Votes_W - Votes_R`. -/
def marginOfGroup (g : PyStr × PyStr) : List Row → Option MarginRow
  | w :: r :: _ =>
    some ⟨g.1, g.2, w.name, w.party, w.votes, r.name, r.party, r.votes,
          w.votes - r.votes⟩
  | _ => none

/-- app.py `get_margin_analysis`: `winners` is the first row of each group of
    `sorted_agg`, `runners` is `nth(1)` (the second row; groups without one
    contribute nothing), and the inner `merge` on `['Prabhag','Election_type']`
    keeps exactly the groups present in both — the groups with at least two
    aggregated candidates. -/
def get_margin_analysis (rows : List Row) : List MarginRow :=
  (peKeys rows).filterMap fun g => marginOfGroup g (groupRows rows g)

/-- One row of v2app.py's `pivot` frame (margin tab): the rank-2 columns are
    `none` when the group has a single candidate (NaN after the pivot). -/
structure PivotRow where
  prabhag : PyStr
  etype : PyStr
  winner : PyStr
  runnerUp : Option PyStr
  winParty : PyStr
  runParty : Option PyStr
  winVotes : Int
  runVotes : Option Int
  margin : Int
  partyFight : PyStr
deriving DecidableEq

/-- v2app.py's margin pivot before its final display sort:
    `top_2 = sorted_agg.groupby([...]).head(2)` with `Rank = cumcount()+1`,
    pivoted to one row per `(Prabhag, Election_type)`;
    `Margin = (Win_Votes - Run_Votes.fillna(0)).astype(int)`;
    `Party_Fight = Win_Party + " vs " + Run_Party.fillna("N/A")`. -/
def pivotOfGroup (g : PyStr × PyStr) : List Row → Option PivotRow
  | [] => none
  | w :: rest =>
    some ⟨g.1, g.2, w.name, rest.head?.map Row.name, w.party,
          rest.head?.map Row.party, w.votes, rest.head?.map Row.votes,
          w.votes - ((rest.head?.map Row.votes).getD 0),
          w.party ++ " vs ".data ++ ((rest.head?.map Row.party).getD "N/A".data)⟩

/-- The data content of the pivoted frame, one row per group.  This describes
    the frame only in the regime where the column renaming of line 219
    succeeds; `v2MarginTab` below adds that error path. -/
def pivotBase (rows : List Row) : List PivotRow :=
  (peKeys rows).filterMap fun g => pivotOfGroup g (groupRows rows g)

/-- `pd.to_numeric(s, errors='coerce')` on a unit label: digit strings parse,
    anything else coerces to NaN (`none`). -/
def toNum (s : PyStr) : Option Nat := if pyIsdigit s then some (pyInt s) else none

/-- `<` on `P_Sort` values, NaN sorted last (pandas `na_position='last'`). -/
def numLtB : Option Nat → Option Nat → Bool
  | some x, some y => decide (x < y)
  | some _, none => true
  | none, _ => false

/-- Comparator of `pivot.sort_values(['P_Sort','Category'])`. -/
def pivotLeB (a b : PivotRow) : Bool :=
  lexLeB numLtB pyLeB (toNum a.prabhag, a.etype) (toNum b.prabhag, b.etype)

/-- v2app.py's pivot frame as displayed: re-sorted by numeric unit id, then
    category (lines 223-224 of v2app.py), in the regime where the pivot
    construction succeeds (see `v2MarginTab`). -/
def v2MarginPivot (rows : List Row) : List PivotRow := stableSort pivotLeB (pivotBase rows)

/-- v2app.py's margin tab (lines 212-224) with its failure mode.
    `top_2.pivot(..., columns='Rank', values=['Name','Party','Votes'])` creates
    columns only for the Rank values actually present; the renaming
    `pivot.columns = [8 names]` (line 219) therefore succeeds exactly when a
    rank-2 row exists — i.e. when some `(Prabhag, Election_type)` group has at
    least two aggregated candidates.  Otherwise (all groups single-candidate,
    or an empty table) the pivoted frame has fewer columns and the assignment
    raises `ValueError: Length mismatch`, modelled as `none`. -/
def v2MarginTab (rows : List Row) : Option (List PivotRow) :=
  if (peKeys rows).any fun g => decide (2 ≤ (groupRows rows g).length) then
    some (v2MarginPivot rows)
  else none

/-- The app.py margin row corresponding to a v2app.py pivot row when that row
    has a runner-up: the refinement mapping between the two representations. -/
def pivotToMarginRow (p : PivotRow) : Option MarginRow :=
  match p.runnerUp, p.runParty, p.runVotes with
  | some n, some pa, some v =>
    some ⟨p.prabhag, p.etype, p.winner, p.winParty, p.winVotes, n, pa, v, p.margin⟩
  | _, _, _ => none

/-- pandas `Series.isin`. -/
def isin (x : PyStr) (l : List PyStr) : Bool := l.any fun y => decide (y = x)

/-- The row filter both full-report paths apply:
    `df[(df['Prabhag'].isin(units)) & (df['Party'].isin(parties))]`. -/
def filterRows (rows : List Row) (units parties : List PyStr) : List Row :=
  rows.filter fun r => isin r.prabhag units && isin r.party parties

/-- `sorted(filtered['Prabhag'].unique(), key=natural_sort_key)`; `none`
    models the TypeError raised on a mix of numeric and non-numeric labels. -/
def reportPrabhags (rows : List Row) (units parties : List PyStr) : Option (List PyStr) :=
  sortedByNaturalKey (uniqueList ((filterRows rows units parties).map Row.prabhag))

/-- One row of app.py's per-unit chart table
    `p_df.groupby(['Name','Party'])['Votes'].sum().reset_index()`. -/
structure ChartRow2 where
  name : PyStr
  party : PyStr
  votes : Int
deriving DecidableEq

def chartDataApp (p_df : List Row) : List ChartRow2 :=
  (sortedDedup pairLtB (p_df.map fun r => (r.name, r.party))).map fun k =>
    ⟨k.1, k.2, ((p_df.filter fun r => decide ((r.name, r.party) = k)).map Row.votes).sum⟩

/-- A page of app.py's full-result PDF: the title and the data the chart image
    draws (the pixel content of the image is out of scope). -/
structure AppPage where
  title : PyStr
  chart : List ChartRow2
deriving DecidableEq

/-- app.py's full-result page loop: `fig.to_image` is *not* wrapped in
    try/except, so a rendering failure raises and no PDF is produced (`none`).
    `render u` says whether rendering unit `u`'s figure succeeds. -/
def appRenderLoop (f_df : List Row) (render : PyStr → Bool) : List PyStr → Option (List AppPage)
  | [] => some []
  | p :: ps =>
    if render p then
      match appRenderLoop f_df render ps with
      | some pages =>
        some (⟨"Result: Prabhag ".data ++ p,
               chartDataApp (f_df.filter fun r => decide (r.prabhag = p))⟩ :: pages)
      | none => none
    else none

/-- app.py's "Generate Full Result PDF" handler: filter, natural-sort the
    selected units, one page per unit; any exception (the natural-key TypeError
    or a rendering error) aborts with no PDF (`none`). -/
def appFullResultPdf (rows : List Row) (units parties : List PyStr)
    (render : PyStr → Bool) : Option (List AppPage) :=
  match reportPrabhags rows units parties with
  | none => none
  | some ps => appRenderLoop (filterRows rows units parties) render ps

/-- One row of v2app.py's per-unit chart table. -/
structure ChartRow3 where
  name : PyStr
  party : PyStr
  etype : PyStr
  votes : Int
deriving DecidableEq

/-- Strict lexicographic order on `(Name, Party, Election_type)` keys. -/
def trioLtB : PyStr × PyStr × PyStr → PyStr × PyStr × PyStr → Bool :=
  lexLtB pyLtB (lexLtB pyLtB pyLtB)

/-- Comparator of
    `chart_data.sort_values(by=['Party','Votes'], ascending=[True,False])`. -/
def pvLeB (a b : ChartRow3) : Bool :=
  lexLeB pyLtB intDescLeB (a.party, a.votes) (b.party, b.votes)

/-- v2app.py's per-unit chart table:
    `groupby(['Name','Party','Election_type'])['Votes'].sum().reset_index()`
    then sorted by party ascending, votes descending. -/
def chartDataV2 (p_df : List Row) : List ChartRow3 :=
  stableSort pvLeB
    ((sortedDedup trioLtB (p_df.map fun r => (r.name, r.party, r.etype))).map fun k =>
      ⟨k.1, k.2.1, k.2.2,
       ((p_df.filter fun r => decide ((r.name, r.party, r.etype) = k)).map Row.votes).sum⟩)

/-- One v2app.py fallback text line, `f"{Name} ({Party}): {Votes:,} votes"`
    (the digits of the vote count are kept; the thousands separator of `:,`
    is not modelled). -/
def fallbackLine (r : ChartRow3) : PyStr :=
  r.name ++ " (".data ++ r.party ++ "): ".data ++ (toString r.votes).data ++ " votes".data

def fallbackLines (cd : List ChartRow3) : List PyStr := cd.map fallbackLine

/-- Content of a v2app.py report page: the rendered chart, or the textual
    candidate/party/votes table substituted when rendering raises. -/
inductive V2Content where
  | chart (rows : List ChartRow3)
  | fallbackTable (lines : List PyStr)
deriving DecidableEq

structure V2Page where
  title : PyStr
  content : V2Content
deriving DecidableEq

/-- Outcome of v2app.py `generate_pdf`: the early `return None`, a PDF, or an
    uncaught exception (the natural-key TypeError from the unit sort). -/
inductive V2PdfOut where
  | returnedNone
  | pdf (pages : List V2Page)
  | raised
deriving DecidableEq

/-- The page v2app.py `generate_pdf` builds for one unit: the chart when
    rendering succeeds, else the textual fallback table (the try/except around
    `fig.to_image`). -/
def v2PageFor (f_df : List Row) (render : PyStr → Bool) (p : PyStr) : V2Page :=
  ⟨"Election Report: Prabhag ".data ++ p,
   if render p then
     V2Content.chart (chartDataV2 (f_df.filter fun r => decide (r.prabhag = p)))
   else
     V2Content.fallbackTable
       (fallbackLines (chartDataV2 (f_df.filter fun r => decide (r.prabhag = p))))⟩

/-- v2app.py `generate_pdf`. -/
def generate_pdf (rows : List Row) (prabhag_list party_list : List PyStr)
    (render : PyStr → Bool) : V2PdfOut :=
  match reportPrabhags rows prabhag_list party_list with
  | none => V2PdfOut.raised
  | some report_prabhags =>
    if report_prabhags.isEmpty then V2PdfOut.returnedNone
    else V2PdfOut.pdf
      (report_prabhags.map (v2PageFor (filterRows rows prabhag_list party_list) render))

/-- `m_report_df` of app.py's "Generate Margin Report PDF": the margin analysis
    of the *unfiltered* table, then restricted to the selected units
    (`m_report_df['Prabhag'].isin(selected_pdf_prabhags)`); the party filter is
    not used by this handler. -/
def m_report_df (rows : List Row) (units : List PyStr) : List MarginRow :=
  (get_margin_analysis rows).filter fun r => isin r.prabhag units

/-- One page of app.py's margin-report PDF: a category and the margin rows
    charted on that page (`type_df`; the display-only `sort_values('Margin')`
    bar ordering inside the image is not modelled). -/
structure MarginPage where
  etype : PyStr
  table : List MarginRow
deriving DecidableEq

/-- app.py's "Generate Margin Report PDF" handler: one page per distinct
    category value of `m_report_df`, in sorted order. -/
def marginReportPages (rows : List Row) (units : List PyStr) : List MarginPage :=
  (stableSort pyLeB (uniqueList ((m_report_df rows units).map MarginRow.etype))).map
    fun e => ⟨e, (m_report_df rows units).filter fun r => decide (r.etype = e)⟩

/- Concrete inputs used by the witnesses and counterexamples below. -/

/-- Tie-break counterexample input: among the two 95-vote candidates, C appears
    before B in the input order. -/
def rowsTieCex : List Row :=
  [⟨"5".data, "General".data, "A".data, "PartyX".data, 120⟩,
   ⟨"5".data, "General".data, "C".data, "PartyX".data, 95⟩,
   ⟨"5".data, "General".data, "B".data, "PartyY".data, 95⟩]

/-- The spec's end-to-end example input: (A, PartyX, 120), (B, PartyY, 95),
    (C, PartyX, 95) in one (unit, category) group. -/
def rowsSpecExample : List Row :=
  [⟨"5".data, "General".data, "A".data, "PartyX".data, 120⟩,
   ⟨"5".data, "General".data, "B".data, "PartyY".data, 95⟩,
   ⟨"5".data, "General".data, "C".data, "PartyX".data, 95⟩]

/-- A two-candidate group ("1","G") next to a single-candidate group ("2","G"). -/
def rowsSingleton : List Row :=
  [⟨"1".data, "G".data, "A".data, "P".data, 10⟩,
   ⟨"1".data, "G".data, "B".data, "Q".data, 8⟩,
   ⟨"2".data, "G".data, "X".data, "P".data, 5⟩]

/-- Two units, 6 and 7, one candidate each. -/
def rowsTwoUnits : List Row :=
  [⟨"6".data, "G".data, "A".data, "P".data, 10⟩,
   ⟨"7".data, "G".data, "B".data, "P".data, 8⟩]

/-- A render oracle that fails exactly on unit "7". -/
def renderFails7 (p : PyStr) : Bool := decide (p ≠ "7".data)

/-- A winner from party P with the runner-up from party Q. -/
def rowsLeak : List Row :=
  [⟨"1".data, "G".data, "A".data, "P".data, 100⟩,
   ⟨"1".data, "G".data, "B".data, "Q".data, 90⟩]

/-- Three records, two of them in the same aggregation group. -/
def rowsPermA : List Row :=
  [⟨"1".data, "G".data, "A".data, "P".data, 3⟩,
   ⟨"1".data, "G".data, "A".data, "P".data, 4⟩,
   ⟨"2".data, "G".data, "B".data, "Q".data, 5⟩]

/-- A permutation of `rowsPermA`. -/
def rowsPermB : List Row :=
  [⟨"2".data, "G".data, "B".data, "Q".data, 5⟩,
   ⟨"1".data, "G".data, "A".data, "P".data, 4⟩,
   ⟨"1".data, "G".data, "A".data, "P".data, 3⟩]

/-- A raw CSV row whose `Party` cell is blank (whitespace only), not NaN. -/
def rawBlankParty : RawRow := ⟨"1".data, "G".data, "A".data, some " ".data, some 5⟩

/-- A raw CSV row whose `Party` cell is NaN (absent). -/
def rawNoParty : RawRow := ⟨"1".data, "G".data, "A".data, none, some 5⟩

/-- A table in which every (unit, category) group has a single candidate. -/
def rowsAllSingleton : List Row :=
  [⟨"1".data, "G".data, "A".data, "P".data, 5⟩,
   ⟨"2".data, "G".data, "B".data, "Q".data, 7⟩]

/-- The pivot row of the single-candidate group ("2","G") of `rowsSingleton`. -/
def pivotRow2G : PivotRow :=
  ⟨"2".data, "G".data, "X".data, none, "P".data, none, 5, none, 5,
   "P vs N/A".data⟩

/-- The margin row of the two-candidate group ("1","G") of `rowsSingleton`. -/
def marginRow1G : MarginRow :=
  ⟨"1".data, "G".data, "A".data, "P".data, 10, "B".data, "Q".data, 8, 2⟩

/-- The margin row produced by `rowsLeak`. -/
def marginRowLeak : MarginRow :=
  ⟨"1".data, "G".data, "A".data, "P".data, 100, "B".data, "Q".data, 90, 10⟩

/- Generic lemmas about the stable sort, the unique list and the sorted
   deduplication used to model pandas' sorting and grouping. -/

theorem stableInsert_perm {α : Type} (le : α → α → Bool) (a : α) (l : List α) :
    (stableInsert le a l).Perm (a :: l) := by
  induction l with
  | nil => exact List.Perm.refl _
  | cons b l ih =>
    rw [stableInsert]
    by_cases h : le a b = true
    · rw [if_pos h]
    · rw [if_neg h]
      exact (ih.cons b).trans (List.Perm.swap a b l)

theorem stableSort_perm {α : Type} (le : α → α → Bool) (l : List α) :
    (stableSort le l).Perm l := by
  induction l with
  | nil => exact List.Perm.refl _
  | cons a l ih => exact (stableInsert_perm le a (stableSort le l)).trans (ih.cons a)

theorem mem_stableSort {α : Type} (le : α → α → Bool) (x : α) (l : List α) :
    x ∈ stableSort le l ↔ x ∈ l := (stableSort_perm le l).mem_iff

theorem mem_stableInsert {α : Type} (le : α → α → Bool) (x a : α) (l : List α) :
    x ∈ stableInsert le a l ↔ x = a ∨ x ∈ l := by
  rw [(stableInsert_perm le a l).mem_iff, List.mem_cons]

theorem pairwise_trivial {α : Type} (l : List α) : l.Pairwise fun _ _ => True := by
  induction l with
  | nil => exact List.Pairwise.nil
  | cons a l ih => exact List.Pairwise.cons (fun _ _ => trivial) ih

theorem stableInsert_pairwise {α : Type} (le : α → α → Bool)
    (htrans : ∀ a b c, le a b = true → le b c = true → le a c = true)
    (htot : ∀ a b, le a b = true ∨ le b a = true)
    (R : α → α → Prop) (x : α) :
    ∀ s : List α, (∀ t ∈ s, R x t) →
      s.Pairwise (fun a b => le a b = true ∧ (le b a = true → R a b)) →
      (stableInsert le x s).Pairwise
        (fun a b => le a b = true ∧ (le b a = true → R a b)) := by
  intro s
  induction s with
  | nil =>
    intro _ _
    simp [stableInsert]
  | cons y ys ih =>
    intro hx hs
    rw [List.pairwise_cons] at hs
    obtain ⟨hy, hys⟩ := hs
    rw [stableInsert]
    by_cases h : le x y = true
    · rw [if_pos h]
      refine List.Pairwise.cons ?_ (List.Pairwise.cons hy hys)
      intro t ht
      rcases List.mem_cons.mp ht with rfl | ht
      · exact ⟨h, fun _ => hx _ (List.mem_cons_self _ _)⟩
      · exact ⟨htrans x y t h (hy t ht).1, fun _ => hx t (List.mem_cons_of_mem _ ht)⟩
    · rw [if_neg h]
      have hyx : le y x = true := (htot x y).resolve_left h
      refine List.Pairwise.cons ?_
        (ih (fun t ht => hx t (List.mem_cons_of_mem _ ht)) hys)
      intro t ht
      rcases (mem_stableInsert le t x ys).mp ht with rfl | ht
      · exact ⟨hyx, fun hxy => absurd hxy h⟩
      · exact hy t ht

theorem stableSort_pairwise {α : Type} (le : α → α → Bool)
    (htrans : ∀ a b c, le a b = true → le b c = true → le a c = true)
    (htot : ∀ a b, le a b = true ∨ le b a = true)
    (R : α → α → Prop) :
    ∀ l : List α, l.Pairwise R →
      (stableSort le l).Pairwise
        (fun a b => le a b = true ∧ (le b a = true → R a b)) := by
  intro l
  induction l with
  | nil => intro _; exact List.Pairwise.nil
  | cons a l ih =>
    intro hl
    rw [List.pairwise_cons] at hl
    exact stableInsert_pairwise le htrans htot R a (stableSort le l)
      (fun t ht => hl.1 t ((stableSort_perm le l).mem_iff.mp ht)) (ih hl.2)

theorem stableSort_sorted {α : Type} (le : α → α → Bool)
    (htrans : ∀ a b c, le a b = true → le b c = true → le a c = true)
    (htot : ∀ a b, le a b = true ∨ le b a = true) (l : List α) :
    (stableSort le l).Pairwise fun a b => le a b = true :=
  (stableSort_pairwise le htrans htot (fun _ _ => True) l (pairwise_trivial l)).imp
    fun h => h.1

theorem mem_uniqueAux {α : Type} [DecidableEq α] (x : α) :
    ∀ (l seen : List α), x ∈ uniqueAux seen l ↔ x ∈ l ∧ x ∉ seen := by
  intro l
  induction l with
  | nil => intro seen; simp [uniqueAux]
  | cons a l ih =>
    intro seen
    rw [uniqueAux]
    by_cases h : a ∈ seen
    · rw [if_pos h, ih]
      simp only [List.mem_cons]
      constructor
      · rintro ⟨hx, hs⟩; exact ⟨Or.inr hx, hs⟩
      · rintro ⟨hx | hx, hs⟩
        · subst hx; exact absurd h hs
        · exact ⟨hx, hs⟩
    · rw [if_neg h]
      simp only [List.mem_cons, ih]
      by_cases hxa : x = a
      · subst hxa; simp [h]
      · simp [hxa]

theorem mem_uniqueList {α : Type} [DecidableEq α] (x : α) (l : List α) :
    x ∈ uniqueList l ↔ x ∈ l := by
  rw [uniqueList, mem_uniqueAux]; simp

theorem mem_sortedDedup {α : Type} [DecidableEq α] (lt : α → α → Bool) (x : α)
    (l : List α) : x ∈ sortedDedup lt l ↔ x ∈ l := by
  rw [sortedDedup, List.mem_dedup, mem_stableSort]

theorem ltToLeB_total {α : Type} [DecidableEq α] (lt : α → α → Bool)
    (htri : ∀ a b, lt a b = true ∨ a = b ∨ lt b a = true) :
    ∀ a b, ltToLeB lt a b = true ∨ ltToLeB lt b a = true := by
  intro a b
  rcases htri a b with h | h | h
  · left; simp [ltToLeB, h]
  · left; simp [ltToLeB, h]
  · right; simp [ltToLeB, h]

theorem ltToLeB_trans {α : Type} [DecidableEq α] (lt : α → α → Bool)
    (htrans : ∀ a b c, lt a b = true → lt b c = true → lt a c = true) :
    ∀ a b c, ltToLeB lt a b = true → ltToLeB lt b c = true → ltToLeB lt a c = true := by
  intro a b c hab hbc
  simp only [ltToLeB, Bool.or_eq_true, decide_eq_true_eq] at hab hbc ⊢
  rcases hab with hab | rfl
  · rcases hbc with hbc | rfl
    · exact Or.inl (htrans _ _ _ hab hbc)
    · exact Or.inl hab
  · exact hbc

theorem ltToLeB_lt_of_ne {α : Type} [DecidableEq α] (lt : α → α → Bool) {a b : α}
    (h : ltToLeB lt a b = true) (hne : a ≠ b) : lt a b = true := by
  simp only [ltToLeB, Bool.or_eq_true, decide_eq_true_eq] at h
  exact h.resolve_right hne

theorem sortedDedup_pairwise {α : Type} [DecidableEq α] (lt : α → α → Bool)
    (htrans : ∀ a b c, lt a b = true → lt b c = true → lt a c = true)
    (htri : ∀ a b, lt a b = true ∨ a = b ∨ lt b a = true) (l : List α) :
    (sortedDedup lt l).Pairwise fun a b => lt a b = true := by
  have h1 : (stableSort (ltToLeB lt) l).Pairwise fun a b => ltToLeB lt a b = true :=
    stableSort_sorted _ (ltToLeB_trans lt htrans) (ltToLeB_total lt htri) l
  have h2 : (sortedDedup lt l).Pairwise fun a b => ltToLeB lt a b = true :=
    h1.sublist (List.dedup_sublist _)
  have h3 : (sortedDedup lt l).Pairwise (· ≠ ·) := List.nodup_dedup _
  exact (h2.and h3).imp fun h => ltToLeB_lt_of_ne lt h.1 h.2

/- Order lemmas for the string and key comparators. -/

theorem pyLtB_irrefl : ∀ s : PyStr, pyLtB s s = false := by
  intro s
  induction s with
  | nil => rfl
  | cons a s ih => simp [pyLtB, ih]

theorem pyLtB_trans : ∀ s t u : PyStr, pyLtB s t = true → pyLtB t u = true → pyLtB s u = true
  | _, t, [] => fun _ h2 => by simp [pyLtB] at h2
  | [], _ :: _, _ :: _ => fun _ _ => rfl
  | [], [], _ :: _ => fun h1 _ => by simp [pyLtB] at h1
  | _ :: _, [], _ :: _ => fun h1 _ => by simp [pyLtB] at h1
  | a :: s, b :: t, c :: u => fun h1 h2 => by
    simp only [pyLtB, Bool.or_eq_true, Bool.and_eq_true, decide_eq_true_eq] at h1 h2 ⊢
    rcases h1 with h1 | ⟨rfl, h1⟩
    · rcases h2 with h2 | ⟨rfl, h2⟩
      · exact Or.inl (lt_trans h1 h2)
      · exact Or.inl h1
    · rcases h2 with h2 | ⟨rfl, h2⟩
      · exact Or.inl h2
      · exact Or.inr ⟨rfl, pyLtB_trans s t u h1 h2⟩

theorem pyLtB_trichotomy : ∀ s t : PyStr, pyLtB s t = true ∨ s = t ∨ pyLtB t s = true
  | [], [] => Or.inr (Or.inl rfl)
  | [], _ :: _ => Or.inl rfl
  | _ :: _, [] => Or.inr (Or.inr rfl)
  | a :: s, b :: t => by
    rcases lt_trichotomy a b with h | rfl | h
    · exact Or.inl (by simp [pyLtB, h])
    · rcases pyLtB_trichotomy s t with h | rfl | h
      · exact Or.inl (by simp [pyLtB, h])
      · exact Or.inr (Or.inl rfl)
      · exact Or.inr (Or.inr (by simp [pyLtB, h]))
    · exact Or.inr (Or.inr (by simp [pyLtB, h]))

theorem lexLtB_trans {α β : Type} [DecidableEq α] (lt1 : α → α → Bool) (lt2 : β → β → Bool)
    (h1 : ∀ a b c, lt1 a b = true → lt1 b c = true → lt1 a c = true)
    (h2 : ∀ a b c, lt2 a b = true → lt2 b c = true → lt2 a c = true) :
    ∀ p q r : α × β, lexLtB lt1 lt2 p q = true → lexLtB lt1 lt2 q r = true →
      lexLtB lt1 lt2 p r = true := by
  rintro ⟨a1, a2⟩ ⟨b1, b2⟩ ⟨c1, c2⟩ hab hbc
  simp only [lexLtB, Bool.or_eq_true, Bool.and_eq_true, decide_eq_true_eq] at hab hbc ⊢
  rcases hab with hab | ⟨rfl, hab⟩
  · rcases hbc with hbc | ⟨rfl, hbc⟩
    · exact Or.inl (h1 _ _ _ hab hbc)
    · exact Or.inl hab
  · rcases hbc with hbc | ⟨rfl, hbc⟩
    · exact Or.inl hbc
    · exact Or.inr ⟨rfl, h2 _ _ _ hab hbc⟩

theorem lexLtB_trichotomy {α β : Type} [DecidableEq α] (lt1 : α → α → Bool) (lt2 : β → β → Bool)
    (h1 : ∀ a b : α, lt1 a b = true ∨ a = b ∨ lt1 b a = true)
    (h2 : ∀ a b : β, lt2 a b = true ∨ a = b ∨ lt2 b a = true) :
    ∀ p q : α × β, lexLtB lt1 lt2 p q = true ∨ p = q ∨ lexLtB lt1 lt2 q p = true := by
  rintro ⟨a1, a2⟩ ⟨b1, b2⟩
  rcases h1 a1 b1 with h | rfl | h
  · exact Or.inl (by simp [lexLtB, h])
  · rcases h2 a2 b2 with h | rfl | h
    · exact Or.inl (by simp [lexLtB, h])
    · exact Or.inr (Or.inl rfl)
    · exact Or.inr (Or.inr (by simp [lexLtB, h]))
  · exact Or.inr (Or.inr (by simp [lexLtB, h]))

theorem lexLtB_fst_eq {α β : Type} [DecidableEq α] (lt1 : α → α → Bool) (lt2 : β → β → Bool)
    (h1 : ∀ a, lt1 a a = false) {p q : α × β} (he : p.1 = q.1) :
    lexLtB lt1 lt2 p q = lt2 p.2 q.2 := by
  obtain ⟨a, x⟩ := p
  obtain ⟨b, y⟩ := q
  cases he
  simp [lexLtB, h1]

theorem lexLeB_total {α β : Type} [DecidableEq α] (lt1 : α → α → Bool) (le2 : β → β → Bool)
    (h1 : ∀ a b : α, lt1 a b = true ∨ a = b ∨ lt1 b a = true)
    (h2 : ∀ a b : β, le2 a b = true ∨ le2 b a = true) :
    ∀ p q : α × β, lexLeB lt1 le2 p q = true ∨ lexLeB lt1 le2 q p = true := by
  rintro ⟨a1, a2⟩ ⟨b1, b2⟩
  rcases h1 a1 b1 with h | rfl | h
  · exact Or.inl (by simp [lexLeB, h])
  · rcases h2 a2 b2 with h | h
    · exact Or.inl (by simp [lexLeB, h])
    · exact Or.inr (by simp [lexLeB, h])
  · exact Or.inr (by simp [lexLeB, h])

theorem lexLeB_trans {α β : Type} [DecidableEq α] (lt1 : α → α → Bool) (le2 : β → β → Bool)
    (h1 : ∀ a b c, lt1 a b = true → lt1 b c = true → lt1 a c = true)
    (h2 : ∀ a b c, le2 a b = true → le2 b c = true → le2 a c = true) :
    ∀ p q r : α × β, lexLeB lt1 le2 p q = true → lexLeB lt1 le2 q r = true →
      lexLeB lt1 le2 p r = true := by
  rintro ⟨a1, a2⟩ ⟨b1, b2⟩ ⟨c1, c2⟩ hab hbc
  simp only [lexLeB, Bool.or_eq_true, Bool.and_eq_true, decide_eq_true_eq] at hab hbc ⊢
  rcases hab with hab | ⟨rfl, hab⟩
  · rcases hbc with hbc | ⟨rfl, hbc⟩
    · exact Or.inl (h1 _ _ _ hab hbc)
    · exact Or.inl hab
  · rcases hbc with hbc | ⟨rfl, hbc⟩
    · exact Or.inl hbc
    · exact Or.inr ⟨rfl, h2 _ _ _ hab hbc⟩

theorem lexLeB_fst_eq {α β : Type} [DecidableEq α] (lt1 : α → α → Bool) (le2 : β → β → Bool)
    (h1 : ∀ a, lt1 a a = false) {p q : α × β} (he : p.1 = q.1) :
    lexLeB lt1 le2 p q = le2 p.2 q.2 := by
  obtain ⟨a, x⟩ := p
  obtain ⟨b, y⟩ := q
  cases he
  simp [lexLeB, h1]

theorem intDescLeB_total : ∀ x y : Int, intDescLeB x y = true ∨ intDescLeB y x = true := by
  intro x y
  rcases le_total y x with h | h
  · exact Or.inl (by simp [intDescLeB, h])
  · exact Or.inr (by simp [intDescLeB, h])

theorem intDescLeB_trans :
    ∀ x y z : Int, intDescLeB x y = true → intDescLeB y z = true → intDescLeB x z = true := by
  intro x y z hxy hyz
  simp only [intDescLeB, decide_eq_true_eq] at hxy hyz ⊢
  exact le_trans hyz hxy

theorem key4LtB_trans : ∀ a b c : Key4,
    key4LtB a b = true → key4LtB b c = true → key4LtB a c = true :=
  lexLtB_trans _ _ pyLtB_trans
    (lexLtB_trans _ _ pyLtB_trans (lexLtB_trans _ _ pyLtB_trans pyLtB_trans))

theorem key4LtB_trichotomy : ∀ a b : Key4,
    key4LtB a b = true ∨ a = b ∨ key4LtB b a = true :=
  lexLtB_trichotomy _ _ pyLtB_trichotomy
    (lexLtB_trichotomy _ _ pyLtB_trichotomy
      (lexLtB_trichotomy _ _ pyLtB_trichotomy pyLtB_trichotomy))

theorem saLeB_total : ∀ a b : Row, saLeB a b = true ∨ saLeB b a = true := fun _ _ =>
  lexLeB_total _ _ pyLtB_trichotomy
    (fun x y => lexLeB_total _ _ pyLtB_trichotomy intDescLeB_total x y) _ _

theorem saLeB_trans : ∀ a b c : Row, saLeB a b = true → saLeB b c = true → saLeB a c = true :=
  fun _ _ _ hab hbc =>
    lexLeB_trans _ _ pyLtB_trans
      (lexLeB_trans _ _ pyLtB_trans intDescLeB_trans) _ _ _ hab hbc

theorem saLeB_pe_eq {a b : Row} (hp : a.prabhag = b.prabhag) (he : a.etype = b.etype) :
    saLeB a b = decide (b.votes ≤ a.votes) := by
  rw [saLeB, lexLeB_fst_eq _ _ pyLtB_irrefl hp, lexLeB_fst_eq _ _ pyLtB_irrefl he]
  rfl

theorem saLeB_votes {a b : Row} (hp : a.prabhag = b.prabhag) (he : a.etype = b.etype)
    (h : saLeB a b = true) : b.votes ≤ a.votes := by
  rw [saLeB_pe_eq hp he] at h
  exact of_decide_eq_true h

/- Structural lemmas about the aggregation and the sorted frame. -/

theorem rowKey_mk (k : Key4) (v : Int) :
    rowKey ⟨k.1, k.2.1, k.2.2.1, k.2.2.2, v⟩ = k := rfl

theorem agg_pairwise (rows : List Row) :
    (agg rows).Pairwise fun a b => key4LtB (rowKey a) (rowKey b) = true := by
  rw [agg, List.pairwise_map]
  exact (sortedDedup_pairwise key4LtB key4LtB_trans key4LtB_trichotomy
    (rows.map rowKey)).imp fun hab => by rwa [rowKey_mk, rowKey_mk]

theorem sorted_agg_pairwise (rows : List Row) :
    (sorted_agg rows).Pairwise fun a b =>
      saLeB a b = true ∧ (saLeB b a = true → key4LtB (rowKey a) (rowKey b) = true) :=
  stableSort_pairwise saLeB saLeB_trans saLeB_total _ (agg rows) (agg_pairwise rows)

theorem key4LtB_pe_eq {a b : Row} (hp : a.prabhag = b.prabhag) (he : a.etype = b.etype) :
    key4LtB (rowKey a) (rowKey b) = pairLtB (a.name, a.party) (b.name, b.party) := by
  have e1 : key4LtB (rowKey a) (rowKey b) =
      lexLtB pyLtB (lexLtB pyLtB pyLtB) (rowKey a).2 (rowKey b).2 :=
    lexLtB_fst_eq _ _ pyLtB_irrefl hp
  rw [e1]
  exact lexLtB_fst_eq _ _ pyLtB_irrefl he

/-- Within the stably sorted aggregated frame, two rows of the same
    (unit, category) group appear in descending vote order, and an exact vote
    tie is ordered by ascending `(Name, Party)` — the position the pair had in
    the aggregated frame, whose keys pandas sorted ascending. -/
theorem sorted_agg_tiebreak (rows : List Row) :
    (sorted_agg rows).Pairwise fun a b =>
      a.prabhag = b.prabhag → a.etype = b.etype →
        b.votes < a.votes ∨ (a.votes = b.votes ∧
          pairLtB (a.name, a.party) (b.name, b.party) = true) := by
  refine (sorted_agg_pairwise rows).imp ?_
  rintro a b ⟨hle, hstab⟩ hp he
  have hv : b.votes ≤ a.votes := saLeB_votes hp he hle
  by_cases hvv : b.votes < a.votes
  · exact Or.inl hvv
  · have hveq : a.votes = b.votes := by omega
    have hba : saLeB b a = true := by
      rw [saLeB_pe_eq hp.symm he.symm]
      simp [hveq]
    have hk := hstab hba
    rw [key4LtB_pe_eq hp he] at hk
    exact Or.inr ⟨hveq, hk⟩

theorem marginOfGroup_nil (g : PyStr × PyStr) : marginOfGroup g [] = none := rfl

theorem marginOfGroup_single (g : PyStr × PyStr) (w : Row) :
    marginOfGroup g [w] = none := rfl

theorem marginOfGroup_cons (g : PyStr × PyStr) (w r : Row) (rest : List Row) :
    marginOfGroup g (w :: r :: rest) =
      some ⟨g.1, g.2, w.name, w.party, w.votes, r.name, r.party, r.votes,
            w.votes - r.votes⟩ := rfl

theorem pivotOfGroup_nil (g : PyStr × PyStr) : pivotOfGroup g [] = none := rfl

theorem pivotOfGroup_cons (g : PyStr × PyStr) (w : Row) (rest : List Row) :
    pivotOfGroup g (w :: rest) =
      some ⟨g.1, g.2, w.name, rest.head?.map Row.name, w.party,
            rest.head?.map Row.party, w.votes, rest.head?.map Row.votes,
            w.votes - ((rest.head?.map Row.votes).getD 0),
            w.party ++ " vs ".data ++ ((rest.head?.map Row.party).getD "N/A".data)⟩ := rfl

theorem peRow_of_mem_groupRows {rows : List Row} {g : PyStr × PyStr} {a : Row}
    (h : a ∈ groupRows rows g) : peRow a = g := by
  rw [groupRows] at h
  exact of_decide_eq_true (List.mem_filter.mp h).2

theorem groupRows_pairwise (rows : List Row) (g : PyStr × PyStr) :
    (groupRows rows g).Pairwise fun a b =>
      saLeB a b = true ∧ (saLeB b a = true → key4LtB (rowKey a) (rowKey b) = true) :=
  (sorted_agg_pairwise rows).sublist (List.filter_sublist _)

/-- In any group with at least two rows, the second row's votes do not exceed
    the first row's (the frame is sorted descending by votes inside a group). -/
theorem groupRows_second_votes (rows : List Row) (g : PyStr × PyStr) (w r : Row)
    (rest : List Row) (h : groupRows rows g = w :: r :: rest) : r.votes ≤ w.votes := by
  have hpair := groupRows_pairwise rows g
  rw [h, List.pairwise_cons] at hpair
  have hwr := hpair.1 r (List.mem_cons_self _ _)
  have hw : peRow w = g :=
    peRow_of_mem_groupRows (h ▸ List.mem_cons_self _ _)
  have hr : peRow r = g :=
    peRow_of_mem_groupRows (h ▸ List.mem_cons_of_mem _ (List.mem_cons_self _ _))
  have hpe : peRow w = peRow r := hw.trans hr.symm
  have hp : w.prabhag = r.prabhag := congrArg Prod.fst hpe
  have he : w.etype = r.etype := congrArg Prod.snd hpe
  exact saLeB_votes hp he hwr.1

theorem groupRows_ne_nil (rows : List Row) (g : PyStr × PyStr)
    (hg : g ∈ peKeys rows) : groupRows rows g ≠ [] := by
  rw [peKeys, mem_sortedDedup] at hg
  obtain ⟨a, ha, hpe⟩ := List.mem_map.mp hg
  have : a ∈ groupRows rows g := List.mem_filter.mpr ⟨ha, by simp [hpe]⟩
  exact List.ne_nil_of_mem this

/-- The `(unit, category)` pairs of app.py's `margin_df` are exactly the group
    keys whose group has at least two aggregated candidates. -/
theorem filterMap_margin_keys (rows : List Row) :
    ∀ l : List (PyStr × PyStr),
      ((l.filterMap fun g => marginOfGroup g (groupRows rows g)).map
          fun m => (m.prabhag, m.etype)) =
        l.filter fun g => decide (2 ≤ (groupRows rows g).length) := by
  intro l
  induction l with
  | nil => rfl
  | cons g l ih =>
    rw [List.filterMap_cons, List.filter_cons]
    rcases hgr : groupRows rows g with _ | ⟨w, _ | ⟨r, rest⟩⟩
    · rw [marginOfGroup_nil]
      simpa using ih
    · rw [marginOfGroup_single]
      simpa using ih
    · rw [marginOfGroup_cons]
      simpa using ih

/-- Every group key yields exactly one row of v2app.py's pivot frame, carrying
    that key. -/
theorem filterMap_pivot_keys (rows : List Row) :
    ∀ l : List (PyStr × PyStr), (∀ g ∈ l, groupRows rows g ≠ []) →
      ((l.filterMap fun g => pivotOfGroup g (groupRows rows g)).map
          fun p => (p.prabhag, p.etype)) = l := by
  intro l
  induction l with
  | nil => intro _; rfl
  | cons g l ih =>
    intro hne
    rw [List.filterMap_cons]
    rcases hgr : groupRows rows g with _ | ⟨w, rest⟩
    · exact absurd hgr (hne g (List.mem_cons_self _ _))
    · rw [pivotOfGroup_cons]
      simpa using ih fun x hx => hne x (List.mem_cons_of_mem _ hx)

/- Inversion lemmas for the per-group margin constructions. -/

theorem marginOfGroup_eq_some {g : PyStr × PyStr} {l : List Row} {m : MarginRow}
    (h : marginOfGroup g l = some m) :
    ∃ w r rest, l = w :: r :: rest ∧
      m = ⟨g.1, g.2, w.name, w.party, w.votes, r.name, r.party, r.votes,
           w.votes - r.votes⟩ := by
  cases l with
  | nil => simp [marginOfGroup_nil] at h
  | cons w t =>
    cases t with
    | nil => simp [marginOfGroup_single] at h
    | cons r rest =>
      rw [marginOfGroup_cons] at h
      exact ⟨w, r, rest, rfl, (Option.some.inj h).symm⟩

theorem pivotOfGroup_eq_some {g : PyStr × PyStr} {l : List Row} {p : PivotRow}
    (h : pivotOfGroup g l = some p) :
    ∃ w rest, l = w :: rest ∧
      p = ⟨g.1, g.2, w.name, rest.head?.map Row.name, w.party,
           rest.head?.map Row.party, w.votes, rest.head?.map Row.votes,
           w.votes - ((rest.head?.map Row.votes).getD 0),
           w.party ++ " vs ".data ++ ((rest.head?.map Row.party).getD "N/A".data)⟩ := by
  cases l with
  | nil => simp [pivotOfGroup_nil] at h
  | cons w rest =>
    rw [pivotOfGroup_cons] at h
    exact ⟨w, rest, rfl, (Option.some.inj h).symm⟩

/-- C1 counterexample: on the input (A, PartyX, 120), (C, PartyX, 95),
    (B, PartyY, 95) — where C appears *before* B among the two 95-vote
    candidates — the runner-up computed by `get_margin_analysis` is B, not C.
    The tie is therefore not broken by original input order: pandas `groupby`
    sorts the aggregated keys, so the tie is broken alphabetically. -/
theorem c1_tiebreak_counterexample :
    ((get_margin_analysis rowsTieCex).map fun m => m.nameR) = ["B".data] ∧
    ((rowsTieCex.filter fun r => decide (r.votes = 95)).map Row.name) =
      ["C".data, "B".data] := by
  constructor
  · decide
  · decide

/-- C1 (amended): within every (unit, category) group the ranking that
    determines winner and runner-up is descending by total votes with exact
    ties broken by ascending `(Name, Party)` — the aggregated frame's key
    order, *not* the original input order; on the spec's concrete example
    (A, PartyX, 120), (B, PartyY, 95), (C, PartyX, 95) the runner-up is B
    and the margin is 25 as claimed. -/
theorem c1_tiebreak_amended :
    (∀ rows : List Row, (sorted_agg rows).Pairwise fun a b =>
        a.prabhag = b.prabhag → a.etype = b.etype →
          b.votes < a.votes ∨ (a.votes = b.votes ∧
            pairLtB (a.name, a.party) (b.name, b.party) = true)) ∧
    get_margin_analysis rowsSpecExample =
      [⟨"5".data, "General".data, "A".data, "PartyX".data, 120,
        "B".data, "PartyY".data, 95, 25⟩] :=
  ⟨sorted_agg_tiebreak, by decide⟩

/-- C1 witness: the amended ordering property evaluated on the concrete
    tie input. -/
theorem c1_tiebreak_witness :
    (sorted_agg rowsTieCex).Pairwise fun a b =>
      a.prabhag = b.prabhag → a.etype = b.etype →
        b.votes < a.votes ∨ (a.votes = b.votes ∧
          pairLtB (a.name, a.party) (b.name, b.party) = true) :=
  c1_tiebreak_amended.1 rowsTieCex

/-- C3: sorting `['2','10','1','Ward-A']` with `natural_sort_key` raises a
    TypeError in Python 3 (an int key is compared with a str key), so the
    claimed result `['1','2','10','Ward-A']` is never produced; on homogeneous
    lists the code does sort numerically (digit strings) or lexicographically
    (non-digit strings) as the claim describes. -/
theorem c3_natural_sort_typeerror :
    sortedByNaturalKey ["2".data, "10".data, "1".data, "Ward-A".data] = none ∧
    sortedByNaturalKey ["2".data, "10".data, "1".data] =
      some ["1".data, "2".data, "10".data] ∧
    sortedByNaturalKey ["Ward-A".data, "Alpha".data] =
      some ["Alpha".data, "Ward-A".data] := by
  refine ⟨?_, ?_, ?_⟩
  · decide
  · decide
  · decide

/-- C4: in both margin computations, every group that produces a runner-up has
    margin ≥ 0, and margin = 0 exactly when winner and runner-up have equal
    total votes. -/
theorem c4_margin_nonneg (rows : List Row) :
    (∀ m ∈ get_margin_analysis rows,
        0 ≤ m.margin ∧ (m.margin = 0 ↔ m.votesW = m.votesR)) ∧
    (∀ p ∈ v2MarginPivot rows, ∀ rv, p.runVotes = some rv →
        0 ≤ p.margin ∧ (p.margin = 0 ↔ p.winVotes = rv)) := by
  constructor
  · intro m hm
    rw [get_margin_analysis] at hm
    obtain ⟨g, hg, hfg⟩ := List.mem_filterMap.mp hm
    obtain ⟨w, r, rest, hgr, rfl⟩ := marginOfGroup_eq_some hfg
    have hv := groupRows_second_votes rows g w r rest hgr
    constructor
    · show (0 : Int) ≤ w.votes - r.votes
      omega
    · show w.votes - r.votes = 0 ↔ w.votes = r.votes
      omega
  · intro p hp rv hrv
    rw [v2MarginPivot] at hp
    have hp' : p ∈ pivotBase rows := (mem_stableSort _ _ _).mp hp
    rw [pivotBase] at hp'
    obtain ⟨g, hg, hfg⟩ := List.mem_filterMap.mp hp'
    obtain ⟨w, rest, hgr, rfl⟩ := pivotOfGroup_eq_some hfg
    cases rest with
    | nil => simp at hrv
    | cons r rest' =>
      have hrv' : r.votes = rv := by simpa using hrv
      have hv := groupRows_second_votes rows g w r rest' hgr
      subst hrv'
      constructor
      · show (0 : Int) ≤ w.votes - r.votes
        omega
      · show w.votes - r.votes = 0 ↔ w.votes = r.votes
        omega

/-- C4 witness: the margin properties at the concrete two-candidate group of
    `rowsSingleton`. -/
theorem c4_margin_nonneg_witness :
    0 ≤ marginRow1G.margin ∧ (marginRow1G.margin = 0 ↔ marginRow1G.votesW = marginRow1G.votesR) :=
  (c4_margin_nonneg rowsSingleton).1 marginRow1G (by decide)

/-- C8: aggregation is order-independent — permuting the input records leaves
    the aggregated mapping (key ↦ total votes) unchanged. -/
theorem c8_aggregate_perm (rows rows' : List Row) (h : rows.Perm rows') :
    aggregate rows = aggregate rows' := by
  funext k
  have hf : (rows.filter fun r => decide (rowKey r = k)).Perm
      (rows'.filter fun r => decide (rowKey r = k)) := h.filter _
  have hemp : (rows.filter fun r => decide (rowKey r = k)).isEmpty =
      (rows'.filter fun r => decide (rowKey r = k)).isEmpty := by
    have hlen := hf.length_eq
    rcases h1 : (rows.filter fun r => decide (rowKey r = k)) with _ | ⟨x, xs⟩ <;>
      rcases h2 : (rows'.filter fun r => decide (rowKey r = k)) with _ | ⟨y, ys⟩ <;>
        simp_all
  have hsum : sumVotes rows k = sumVotes rows' k := by
    rw [sumVotes, sumVotes]
    exact (hf.map Row.votes).sum_eq
  rw [aggregate, aggregate, hemp, hsum]

/-- C8 witness: the aggregated mapping of a concrete input equals that of a
    concrete permutation of it. -/
theorem c8_aggregate_perm_witness : aggregate rowsPermA = aggregate rowsPermB :=
  c8_aggregate_perm rowsPermA rowsPermB (by decide)

/-- C9 counterexample: a record whose Party cell is blank (" ") is loaded with
    the empty party, not "Independent": `fillna` replaces only NaN cells, and
    `str.strip()` then reduces the blank to the empty string. -/
theorem c9_party_default_counterexample :
    (load_row rawBlankParty).party = [] ∧ ([] : PyStr) ≠ "Independent".data := by
  constructor
  · decide
  · decide

/-- C9 (amended): a record whose Party cell is absent (NaN) is given the party
    "Independent", but a blank party is merely stripped — it loads as the empty
    string, so a loaded record's party can be empty. -/
theorem c9_party_default_amended :
    (∀ r : RawRow, r.party = none → (load_row r).party = "Independent".data) ∧
    (load_row rawBlankParty).party = [] := by
  constructor
  · intro r h
    show pyStrip (r.party.getD "Independent".data) = "Independent".data
    rw [h]
    decide
  · decide

/-- C9 witness: the absent-party default evaluated on a concrete raw row. -/
theorem c9_party_default_witness : (load_row rawNoParty).party = "Independent".data :=
  c9_party_default_amended.1 rawNoParty rfl

/-- C2 counterexample: `rowsSingleton` has two distinct (unit, category)
    groups, ("1","G") and ("2","G"), but app.py's margin analysis emits a
    result only for ("1","G") — the single-candidate group ("2","G") is
    dropped by the inner merge, so there is not one MarginResult per distinct
    group.  v2app.py also violates the claim, in a different regime: on
    `rowsAllSingleton`, whose two groups are both single-candidate, no rank-2
    pivot column exists, so the column renaming raises ValueError and no
    result at all is emitted for the two distinct groups. -/
theorem c2_singleton_counterexample :
    ((get_margin_analysis rowsSingleton).map fun m => (m.prabhag, m.etype)) =
      [("1".data, "G".data)] ∧
    peKeys rowsSingleton = [("1".data, "G".data), ("2".data, "G".data)] ∧
    v2MarginTab rowsAllSingleton = none ∧
    peKeys rowsAllSingleton = [("1".data, "G".data), ("2".data, "G".data)] := by
  refine ⟨?_, ?_, ?_, ?_⟩
  · decide
  · decide
  · decide
  · decide

/-- C2 (amended): app.py emits exactly one margin row per (unit, category)
    group *having at least two candidates* (singleton groups are dropped by
    the inner merge).  v2app.py's margin tab: whenever the pivot construction
    succeeds — exactly when some group has at least two candidates — it emits
    one row per distinct (unit, category), and for a single-candidate group
    the runner-up fields are absent and the margin equals the winner's total
    votes; when no group has two candidates, the column renaming raises
    ValueError and no table is produced. -/
theorem c2_singleton_amended (rows : List Row) :
    ((get_margin_analysis rows).map fun m => (m.prabhag, m.etype)) =
      ((peKeys rows).filter fun g => decide (2 ≤ (groupRows rows g).length)) ∧
    (peKeys rows).Nodup ∧
    (∀ pvt, v2MarginTab rows = some pvt →
      (pvt.map fun p => (p.prabhag, p.etype)).Perm (peKeys rows) ∧
      ∀ p ∈ pvt, p.runVotes = none →
        p.runnerUp = none ∧ p.runParty = none ∧ p.margin = p.winVotes) ∧
    (((peKeys rows).any fun g => decide (2 ≤ (groupRows rows g).length)) = false →
      v2MarginTab rows = none) := by
  refine ⟨?_, ?_, ?_, ?_⟩
  · rw [get_margin_analysis]
    exact filterMap_margin_keys rows (peKeys rows)
  · rw [peKeys, sortedDedup]
    exact List.nodup_dedup _
  · intro pvt hpvt
    rw [v2MarginTab] at hpvt
    by_cases hc : ((peKeys rows).any fun g => decide (2 ≤ (groupRows rows g).length)) = true
    · rw [if_pos hc] at hpvt
      obtain rfl := (Option.some.inj hpvt).symm
      constructor
      · have h1 : ((v2MarginPivot rows).map fun p => (p.prabhag, p.etype)).Perm
            ((pivotBase rows).map fun p => (p.prabhag, p.etype)) :=
          (stableSort_perm pivotLeB (pivotBase rows)).map _
        have h2 : ((pivotBase rows).map fun p => (p.prabhag, p.etype)) = peKeys rows := by
          rw [pivotBase]
          exact filterMap_pivot_keys rows (peKeys rows) fun g hg => groupRows_ne_nil rows g hg
        exact h2 ▸ h1
      · intro p hp hrv
        rw [v2MarginPivot] at hp
        have hp' : p ∈ pivotBase rows := (mem_stableSort _ _ _).mp hp
        rw [pivotBase] at hp'
        obtain ⟨g, hg, hfg⟩ := List.mem_filterMap.mp hp'
        obtain ⟨w, rest, hgr, rfl⟩ := pivotOfGroup_eq_some hfg
        cases rest with
        | cons r rest' => simp at hrv
        | nil =>
          refine ⟨rfl, rfl, ?_⟩
          show w.votes - 0 = w.votes
          omega
    · rw [if_neg hc] at hpvt
      exact absurd hpvt (by simp)
  · intro hc
    rw [v2MarginTab, if_neg (by simp [hc])]

/-- C2 witness: on `rowsSingleton` the pivot construction succeeds, and the
    pivot row of the concrete single-candidate group ("2","G") has no
    runner-up and margin equal to the winner's votes. -/
theorem c2_singleton_witness :
    pivotRow2G.runnerUp = none ∧ pivotRow2G.runParty = none ∧
      pivotRow2G.margin = pivotRow2G.winVotes :=
  (((c2_singleton_amended rowsSingleton).2.2.1 (v2MarginPivot rowsSingleton)
      (by decide)).2) pivotRow2G (by decide) rfl

/-- C10: the two margin computations agree — app.py's margin table is, up to
    the pivot's display re-sort, exactly v2app.py's pivot restricted to the
    rows that have a runner-up, with the same winner name/party, runner-up
    name/party and margin (the refinement map `pivotToMarginRow`). -/
theorem c10_margin_refinement (rows : List Row) :
    ((v2MarginPivot rows).filterMap pivotToMarginRow).Perm (get_margin_analysis rows) := by
  have h1 : ((v2MarginPivot rows).filterMap pivotToMarginRow).Perm
      ((pivotBase rows).filterMap pivotToMarginRow) :=
    (stableSort_perm pivotLeB (pivotBase rows)).filterMap _
  have h2 : (pivotBase rows).filterMap pivotToMarginRow = get_margin_analysis rows := by
    rw [pivotBase, get_margin_analysis, List.filterMap_filterMap]
    apply List.filterMap_congr
    intro g _
    rcases hgr : groupRows rows g with _ | ⟨w, _ | ⟨r, rest⟩⟩
    · rw [pivotOfGroup_nil, marginOfGroup_nil]
      rfl
    · rw [pivotOfGroup_cons, marginOfGroup_single]
      rfl
    · rw [pivotOfGroup_cons, marginOfGroup_cons]
      rfl
  exact h2 ▸ h1

/-- C10 witness: the refinement evaluated on a concrete input containing both
    a two-candidate and a single-candidate group. -/
theorem c10_margin_refinement_witness :
    ((v2MarginPivot rowsSingleton).filterMap pivotToMarginRow).Perm
      (get_margin_analysis rowsSingleton) :=
  c10_margin_refinement rowsSingleton

/- Report-layer support lemmas. -/

theorem filterRows_nil_units (rows : List Row) (parties : List PyStr) :
    filterRows rows [] parties = [] := by
  rw [filterRows]
  induction rows with
  | nil => rfl
  | cons r rs ih => simp [isin, ih]

theorem filterRows_idem (rows : List Row) (units parties : List PyStr) :
    filterRows (filterRows rows units parties) units parties =
      filterRows rows units parties := by
  simp [filterRows, List.filter_filter]

theorem appRenderLoop_fail (f_df : List Row) (render : PyStr → Bool) :
    ∀ ps : List PyStr, ∀ p ∈ ps, render p = false →
      appRenderLoop f_df render ps = none := by
  intro ps
  induction ps with
  | nil => intro p hp _; exact absurd hp (List.not_mem_nil p)
  | cons q qs ih =>
    intro p hp hr
    rw [appRenderLoop]
    by_cases hq : render q = true
    · rw [if_pos hq]
      have hpq : p ∈ qs := by
        rcases List.mem_cons.mp hp with rfl | h
        · rw [hr] at hq; exact absurd hq (by simp)
        · exact h
      rw [ih p hpq hr]
    · rw [if_neg hq]

/-- C5 counterexample: rendering fails only for unit "7" (it succeeds for
    unit "6"), yet app.py's full-result report produces no PDF at all — there
    is no page for any selected unit, because `fig.to_image` is not wrapped in
    try/except and the exception aborts the whole loop. -/
theorem c5_render_fallback_counterexample :
    appFullResultPdf rowsTwoUnits ["6".data, "7".data] ["P".data] renderFails7 = none ∧
    renderFails7 "6".data = true := by
  constructor
  · decide
  · decide

/-- C5 (amended): only v2app.py's `generate_pdf` substitutes the textual
    fallback page and still emits one page per selected unit when rendering of
    some unit fails; in app.py's full-result export a single unit's rendering
    failure aborts the report and no page list is produced. -/
theorem c5_render_fallback_amended :
    (∀ rows units parties render ps p,
        reportPrabhags rows units parties = some ps → p ∈ ps → render p = false →
        appFullResultPdf rows units parties render = none) ∧
    (∀ rows units parties render ps,
        reportPrabhags rows units parties = some ps → ps ≠ [] →
        ∃ pages, generate_pdf rows units parties render = V2PdfOut.pdf pages ∧
          pages.length = ps.length ∧
          ∀ p ∈ ps, render p = false →
            (⟨"Election Report: Prabhag ".data ++ p,
              V2Content.fallbackTable (fallbackLines (chartDataV2
                ((filterRows rows units parties).filter fun r =>
                  decide (r.prabhag = p))))⟩ : V2Page) ∈ pages) := by
  constructor
  · intro rows units parties render ps p hps hp hr
    rw [appFullResultPdf, hps]
    exact appRenderLoop_fail _ render ps p hp hr
  · intro rows units parties render ps hps hne
    have hie : ps.isEmpty = false := by
      cases ps with
      | nil => exact absurd rfl hne
      | cons a l => rfl
    refine ⟨ps.map (v2PageFor (filterRows rows units parties) render), ?_, ?_, ?_⟩
    · simp [generate_pdf, hps, hie]
    · exact List.length_map ps _
    · intro p hp hr
      have hpage : v2PageFor (filterRows rows units parties) render p =
          ⟨"Election Report: Prabhag ".data ++ p,
           V2Content.fallbackTable (fallbackLines (chartDataV2
             ((filterRows rows units parties).filter fun r =>
               decide (r.prabhag = p))))⟩ := by
        rw [v2PageFor, if_neg (by simp [hr])]
      rw [← hpage]
      exact List.mem_map_of_mem _ hp

/-- C5 witness: on the two-unit input with rendering failing for unit "7",
    v2app.py still produces a page per unit, unit "7" as a textual fallback. -/
theorem c5_render_fallback_witness :
    ∃ pages, generate_pdf rowsTwoUnits ["6".data, "7".data] ["P".data] renderFails7 =
        V2PdfOut.pdf pages ∧
      pages.length = (["6".data, "7".data] : List PyStr).length ∧
      ∀ p ∈ (["6".data, "7".data] : List PyStr), renderFails7 p = false →
        (⟨"Election Report: Prabhag ".data ++ p,
          V2Content.fallbackTable (fallbackLines (chartDataV2
            ((filterRows rowsTwoUnits ["6".data, "7".data] ["P".data]).filter fun r =>
              decide (r.prabhag = p))))⟩ : V2Page) ∈ pages :=
  c5_render_fallback_amended.2 rowsTwoUnits ["6".data, "7".data] ["P".data] renderFails7
    ["6".data, "7".data] (by decide) (by decide)

/-- C6 counterexample: with an empty unit filter v2app.py's `generate_pdf`
    returns the `None` sentinel — which its caller reports as a failed
    generation — not an empty page sequence. -/
theorem c6_empty_filter_counterexample :
    generate_pdf rowsTwoUnits [] ["P".data] renderFails7 = V2PdfOut.returnedNone ∧
    V2PdfOut.returnedNone ≠ V2PdfOut.pdf [] := by
  constructor
  · decide
  · decide

/-- C6 (amended): when the unit filter selects nothing, app.py's full-result
    export runs to completion with an empty page sequence (no error), while
    v2app.py's `generate_pdf` returns the distinguished `None` value without
    raising; neither raises an exception. -/
theorem c6_empty_filter_amended :
    (∀ rows parties render, appFullResultPdf rows [] parties render = some []) ∧
    (∀ rows parties render, generate_pdf rows [] parties render = V2PdfOut.returnedNone) := by
  have hrp : ∀ (rows : List Row) (parties : List PyStr),
      reportPrabhags rows [] parties = some [] := by
    intro rows parties
    rw [reportPrabhags, filterRows_nil_units]
    rfl
  constructor
  · intro rows parties render
    rw [appFullResultPdf, hrp]
    rfl
  · intro rows parties render
    rw [generate_pdf, hrp]
    rfl

/-- C6 witness: the empty-filter behaviour of both exports at concrete inputs. -/
theorem c6_empty_filter_witness :
    appFullResultPdf rowsTwoUnits [] ["P".data] renderFails7 = some [] ∧
    generate_pdf rowsLeak [] ["P".data] renderFails7 = V2PdfOut.returnedNone :=
  ⟨c6_empty_filter_amended.1 rowsTwoUnits ["P".data] renderFails7,
   c6_empty_filter_amended.2 rowsLeak ["P".data] renderFails7⟩

/-- C7 counterexample: with unit filter {"1"} and party filter {"P"}, the
    margin-report page for category "G" contains a runner-up from party "Q";
    restricting the rows to the party filter before aggregation would instead
    produce no page at all.  The margin report therefore does not restrict its
    rows to `party ∈ party_filter` before aggregation (it never applies the
    party filter). -/
theorem c7_prefilter_counterexample :
    ((marginReportPages rowsLeak ["1".data]).map fun pg =>
        pg.table.map fun m => m.partyR) = [["Q".data]] ∧
    isin "Q".data ["P".data] = false ∧
    marginReportPages (filterRows rowsLeak ["1".data] ["P".data]) ["1".data] = [] := by
  refine ⟨?_, ?_, ?_⟩
  · decide
  · decide
  · decide

/-- C7 (amended): the two full-result exports depend only on the rows passing
    both filters (filtering precedes aggregation), but the margin-report
    variant computes the margin analysis over the unfiltered table and then
    keeps exactly the margin rows whose unit is selected — the party filter is
    never applied to it. -/
theorem c7_prefilter_amended :
    (∀ rows units parties render,
        appFullResultPdf rows units parties render =
          appFullResultPdf (filterRows rows units parties) units parties render) ∧
    (∀ rows units parties render,
        generate_pdf rows units parties render =
          generate_pdf (filterRows rows units parties) units parties render) ∧
    (∀ rows units, ∀ pg ∈ marginReportPages rows units, ∀ m ∈ pg.table,
        isin m.prabhag units = true ∧ m ∈ get_margin_analysis rows) ∧
    (∀ rows units, ∀ m ∈ get_margin_analysis rows, isin m.prabhag units = true →
        ∃ pg ∈ marginReportPages rows units, m ∈ pg.table) := by
  refine ⟨?_, ?_, ?_, ?_⟩
  · intro rows units parties render
    rw [appFullResultPdf, appFullResultPdf, reportPrabhags, reportPrabhags,
      filterRows_idem]
  · intro rows units parties render
    rw [generate_pdf, generate_pdf, reportPrabhags, reportPrabhags, filterRows_idem]
  · intro rows units pg hpg m hm
    rw [marginReportPages] at hpg
    obtain ⟨e, he, rfl⟩ := List.mem_map.mp hpg
    have hm1 : m ∈ m_report_df rows units := (List.mem_filter.mp hm).1
    rw [m_report_df] at hm1
    obtain ⟨hm2, hm3⟩ := List.mem_filter.mp hm1
    exact ⟨hm3, hm2⟩
  · intro rows units m hm hisin
    have hm1 : m ∈ m_report_df rows units := by
      rw [m_report_df]
      exact List.mem_filter.mpr ⟨hm, hisin⟩
    refine ⟨⟨m.etype, (m_report_df rows units).filter fun r => decide (r.etype = m.etype)⟩,
      ?_, ?_⟩
    · rw [marginReportPages]
      have h1 : m.etype ∈ (m_report_df rows units).map MarginRow.etype :=
        List.mem_map_of_mem _ hm1
      have h2 : m.etype ∈ uniqueList ((m_report_df rows units).map MarginRow.etype) :=
        (mem_uniqueList _ _).mpr h1
      have h3 : m.etype ∈ stableSort pyLeB
          (uniqueList ((m_report_df rows units).map MarginRow.etype)) :=
        (mem_stableSort _ _ _).mpr h2
      exact List.mem_map_of_mem _ h3
    · exact List.mem_filter.mpr ⟨hm1, by simp⟩

/-- C7 witness: the margin row of `rowsLeak` appears on the category page of
    the margin report for unit filter {"1"}. -/
theorem c7_prefilter_witness :
    ∃ pg ∈ marginReportPages rowsLeak ["1".data], marginRowLeak ∈ pg.table :=
  c7_prefilter_amended.2.2.2 rowsLeak ["1".data] marginRowLeak (by decide) (by decide)
